import Mathlib

/-!
# Verification of the question-bank image-mining script

A shallow embedding of `src/image_miner.py` (the single source file of the
repository) together with proofs about the embedded definitions.

Conventions of the embedding:
* JSON values decoded by `response.json()` are modelled by `JVal`; a decoded
  JSON object is an association list with distinct keys, looked up with
  `jLookup`.  Python `None` and JSON `null` are the same decoded value, so a
  Python function that may "return None" is modelled as returning `JVal.jNull`
  (when its result is a decoded JSON value) or an `Option` (otherwise).
* Page coordinates (`fitz.Rect`) are modelled with `Int` layout units; the
  algorithm only subtracts and compares coordinates, which is what the source
  does with them.
* `fuzz.partial_ratio` is an external library call; it is a parameter
  `score : String → String → Nat` of the embedded locator.
* Network calls are modelled by passing the decoded response (or `none` for a
  raised exception) as an argument.
* A Python exception that the source does not catch is an `Except.error`.
-/

set_option autoImplicit false

namespace ImageMiner

/-- Decoded JSON values (the result of `response.json()` in the source). -/
inductive JVal where
  | jNull
  | jBool (b : Bool)
  | jNum (n : Int)
  | jStr (s : String)
  | jArr (elems : List JVal)
  | jObj (fields : List (String × JVal))

/-- Key lookup in a decoded JSON object (a Python `dict`; keys are distinct,
so `find?` is the dictionary lookup). -/
def jLookup (fields : List (String × JVal)) (k : String) : Option JVal :=
  (fields.find? (fun p => p.1 == k)).map Prod.snd

/-- Python truthiness of a decoded JSON value (`if url:` in the source). -/
def pyTruthy : JVal → Bool
  | .jNull => false
  | .jBool b => b
  | .jNum n => n != 0
  | .jStr s => s != ""
  | .jArr l => !l.isEmpty
  | .jObj l => !l.isEmpty

/-- Python truthiness of `os.environ.get(...)`: `None` and `""` are falsy. -/
def pyTruthyOptStr : Option String → Bool
  | none => false
  | some s => s != ""

/-! ## Uploader response parsing (`upload_image_api`, src lines 68–97) -/

/-- The root-level checks of `upload_image_api` (src lines 88–93):
`if 'url' in data: return data['url']`, then `secure_url`, else `None`. -/
def rootChecks (data : List (String × JVal)) : JVal :=
  match jLookup data "url" with
  | some v => v
  | none =>
    match jLookup data "secure_url" with
    | some v => v
    | none => .jNull

/-- URL extraction from a 2xx upload response body (src lines 69–93).
Mirrors the source control flow: when `data['data']` is a dict, a nonempty
`files` list short-circuits with `files[0].get('url')` (a non-dict first
element raises `AttributeError`, caught by the enclosing `except`, hence
`jNull`); otherwise the inner `url`/`link` keys are tried, then the
root-level keys. -/
def parseUploadResponse (data : List (String × JVal)) : JVal :=
  match jLookup data "data" with
  | some (.jObj inner) =>
    match jLookup inner "files" with
    | some (.jArr (f0 :: _)) =>
      (match f0 with
       | .jObj o => (jLookup o "url").getD .jNull
       | _ => .jNull)
    | _ =>
      match jLookup inner "url" with
      | some v => v
      | none =>
        match jLookup inner "link" with
        | some v => v
        | none => rootChecks data
  | _ => rootChecks data

/-- `upload_image_api` after the HTTP call: `resp = none` models a raised
network exception (caught, returns `None`); otherwise the status is checked
against `[200, 201]` and the body is parsed. -/
def upload_image_api (resp : Option (Nat × List (String × JVal))) : JVal :=
  match resp with
  | none => .jNull
  | some (status, data) =>
    if status == 200 || status == 201 then parseUploadResponse data else .jNull

/-- The claimed extraction order, written rule by rule from the claim's words:
root `url`, then `data.url`, then `data.link`, then `data.files[0].url`, then
root `secure_url`, then a string `data` beginning with `http`; the first rule
that matches determines the result. -/
def claimOrderExtract (data : List (String × JVal)) : JVal :=
  let inner : Option (List (String × JVal)) :=
    match jLookup data "data" with
    | some (.jObj o) => some o
    | _ => none
  let ruleRootUrl := jLookup data "url"
  let ruleDataUrl := inner.bind (fun o => jLookup o "url")
  let ruleDataLink := inner.bind (fun o => jLookup o "link")
  let ruleFiles : Option JVal :=
    inner.bind (fun o =>
      match jLookup o "files" with
      | some (.jArr (f0 :: _)) =>
        (match f0 with
         | .jObj fo => jLookup fo "url"
         | _ => none)
      | _ => none)
  let ruleSecure := jLookup data "secure_url"
  let ruleDataStr : Option JVal :=
    match jLookup data "data" with
    | some (.jStr s) => if "http".data.isPrefixOf s.data then some (.jStr s) else none
    | _ => none
  (ruleRootUrl <|> ruleDataUrl <|> ruleDataLink <|> ruleFiles <|> ruleSecure
    <|> ruleDataStr).getD .jNull

/-- The amended extraction order, written rule by rule: when `data` is an
object with a nonempty `files` array, the result is `files[0]`'s `url` (and
no further rule is tried, even when that yields nothing); otherwise
`data.url`, then `data.link`, then root `url`, then root `secure_url`; a
string-valued `data` has no rule. -/
def amendedOrderExtract (data : List (String × JVal)) : JVal :=
  let innerObj : Option (List (String × JVal)) :=
    match jLookup data "data" with
    | some (.jObj o) => some o
    | _ => none
  match innerObj with
  | some inner =>
    match (match jLookup inner "files" with
           | some (.jArr l) => l.head?
           | _ => none) with
    | some f0 =>
      (match f0 with
       | .jObj fo => jLookup fo "url"
       | _ => none).getD .jNull
    | none =>
      (jLookup inner "url" <|> jLookup inner "link" <|> jLookup data "url"
        <|> jLookup data "secure_url").getD .jNull
  | none =>
    (jLookup data "url" <|> jLookup data "secure_url").getD .jNull

/-! ## Authenticator (`login_and_get_token`, src lines 17–50) -/

/-- `login_and_get_token`.  `email`/`password` are the environment variables
(`none` when unset); `resp = none` models a raised network exception.  On a
2xx status the token is `data['data']['accessToken']`; every path on which
the source prints a failure and returns `None` (missing secrets, non-2xx
status, missing keys, or a non-dict `data['data']`, whose subscripting would
raise into the enclosing `except`) yields `none`. -/
def login_and_get_token (email password : Option String)
    (resp : Option (Nat × List (String × JVal))) : Option JVal :=
  if pyTruthyOptStr email && pyTruthyOptStr password then
    match resp with
    | none => none
    | some (status, data) =>
      if status == 200 || status == 201 then
        match jLookup data "data" with
        | some (.jObj inner) =>
          match jLookup inner "accessToken" with
          | some v => some v
          | none => none
        | _ => none
      else none
  else none

/-! ## Layout model (PyMuPDF document as seen by the source) -/

/-- A `fitz.Rect`: `(x0, y0, x1, y1)` in page coordinates, origin top-left,
y increasing downward. -/
structure Rect where
  x0 : Int
  y0 : Int
  x1 : Int
  y1 : Int
deriving DecidableEq

/-- One entry of `page.get_text("blocks")`: `block[:4]` is the bounding box,
`block[4]` the text. -/
structure Block where
  rect : Rect
  text : String
deriving DecidableEq

/-- One entry of `page.get_images(full=True)` together with its
`page.get_image_rects(xref)` result: the xref and the placement rectangles
(only the first is ever used by the source). -/
structure ImageEntry where
  xref : Nat
  rects : List Rect
deriving DecidableEq

/-- A page: its text blocks and its images, in enumeration order. -/
structure Page where
  blocks : List Block
  images : List ImageEntry
deriving DecidableEq

/-- The result of `doc.extract_image(xref)`: raw bytes and format extension. -/
structure ImageData where
  bytes : List Nat
  ext : String
deriving DecidableEq

/-- A loaded document: its pages plus the extraction table;
`extractTable x = none` models `doc.extract_image(x)` raising. -/
structure Document where
  pages : List Page
  extractTable : Nat → Option ImageData

instance {ε α : Type} [DecidableEq ε] [DecidableEq α] :
    DecidableEq (Except ε α) := fun a b =>
  match a, b with
  | .error e1, .error e2 =>
    if h : e1 = e2 then .isTrue (by rw [h])
    else .isFalse (by intro hh; cases hh; exact h rfl)
  | .ok v1, .ok v2 =>
    if h : v1 = v2 then .isTrue (by rw [h])
    else .isFalse (by intro hh; cases hh; exact h rfl)
  | .error _, .ok _ => .isFalse (by intro hh; cases hh)
  | .ok _, .error _ => .isFalse (by intro hh; cases hh)

/-! ## Text Locator (`find_image_below_text`, src lines 103–119) -/

/-- The running `highest_ratio`: `0` initially, the stored score once a
match is recorded.  The source keeps `best_match_page = -1`, `best_rect =
None`, `highest_ratio = 0` and always updates the three together, so the
state is an `Option` of the triple (page, rect, ratio). -/
def ratioOf : Option (Nat × Rect × Nat) → Nat
  | none => 0
  | some (_, _, s) => s

/-- One iteration of the text-search loop (src lines 112–117):
`ratio = fuzz.partial_ratio(query_short, block[4])`, and the best triple is
replaced exactly when `ratio > 85 and ratio > highest_ratio`. -/
def locStep (score : String → String → Nat) (q : String) (pageNum : Nat)
    (st : Option (Nat × Rect × Nat)) (b : Block) : Option (Nat × Rect × Nat) :=
  if 85 < score q b.text ∧ ratioOf st < score q b.text then
    some (pageNum, b.rect, score q b.text)
  else st

/-- The outer loop `for page_num, page in enumerate(doc)` with the inner
loop over `page.get_text("blocks")`. -/
def locatePages (score : String → String → Nat) (q : String) :
    List Page → Nat → Option (Nat × Rect × Nat) → Option (Nat × Rect × Nat)
  | [], _, st => st
  | pg :: rest, n, st =>
    locatePages score q rest (n + 1) (pg.blocks.foldl (locStep score q n) st)

/-- The whole text-search phase: best (page, rect, ratio), or `none` when
`best_match_page` stays `-1`. -/
def locate (score : String → String → Nat) (pages : List Page) (q : String) :
    Option (Nat × Rect × Nat) :=
  locatePages score q pages 0 none

/-- All blocks of a page list in scanning order, each tagged with its page
number (starting at `n`).  Reference order for the locator proofs. -/
def enumBlocksFrom : Nat → List Page → List (Nat × Block)
  | _, [] => []
  | n, pg :: rest => pg.blocks.map (fun b => (n, b)) ++ enumBlocksFrom (n + 1) rest

/-- `locStep` on a page-tagged block. -/
def locStepP (score : String → String → Nat) (q : String)
    (st : Option (Nat × Rect × Nat)) (pb : Nat × Block) :
    Option (Nat × Rect × Nat) :=
  locStep score q pb.1 st pb.2

/-! ## Image Associator (`scan_page` and the search strategy,
src lines 121–162) -/

/-- One iteration of the image loop in `scan_page` (src lines 133–144):
skip an image with no placement rects; otherwise take `rects[0]` and, when
`rect.y0 >= min_y` and `dist < current_min_dist`, record the new candidate.
The accumulator is `(candidate, current_min_dist)`. -/
def scanStep (minY : Int) (acc : Option Nat × Int) (img : ImageEntry) :
    Option Nat × Int :=
  match img.rects with
  | [] => acc
  | rect :: _ =>
    if minY ≤ rect.y0 then
      if rect.y0 - minY < acc.2 then (some img.xref, rect.y0 - minY) else acc
    else acc

/-- `scan_page(page_idx, min_y, max_dist)` (src lines 124–145): `none` when
the page index is out of range (the caught `IndexError`), else the xref of
the minimum-distance image at or below `min_y`, starting the running minimum
at `max_dist`. -/
def scan_page (pages : List Page) (pageIdx : Nat) (minY : Int) (maxDist : Int) :
    Option Nat :=
  match pages[pageIdx]? with
  | none => none
  | some page => (page.images.foldl (scanStep minY) (none, maxDist)).1

/-- Python truthiness of `found_xref` (an xref `0` is falsy, like `None`). -/
def pyTruthyXref : Option Nat → Bool
  | none => false
  | some x => x != 0

/-- The two-pass search strategy (src lines 147–155): same page below the
text with cap 800, then — `if not found_xref` — the top of the next page
with cap 300. -/
def associateXref (pages : List Page) (matchPage : Nat) (textBottom : Int) :
    Option Nat :=
  let found := scan_page pages matchPage textBottom 800
  if pyTruthyXref found then found else scan_page pages (matchPage + 1) 0 300

/-- Python string slicing `s[:n]`: the first `n` characters (code points). -/
def pyTake (s : String) (n : Nat) : String := ⟨s.data.take n⟩

/-- `find_image_below_text` (src lines 103–162): truncate the query to 100
characters (`str(text_query)[:100]`), locate the best fragment, run the
two-pass image search, then `doc.extract_image` — whose failure the source
does not catch, hence `Except.error`. -/
def find_image_below_text (score : String → String → Nat) (doc : Document)
    (textQuery : String) : Except Unit (Option ImageData) :=
  let queryShort := pyTake textQuery 100
  match locate score doc.pages queryShort with
  | none => .ok none
  | some (bestPage, bestRect, _) =>
    let found := associateXref doc.pages bestPage bestRect.y1
    if pyTruthyXref found then
      match doc.extractTable (found.getD 0) with
      | some base => .ok (some base)
      | none => .error ()
    else .ok none

/-! ## Flag coercion and Python string conversion (`main`, src lines 195–201) -/

/-- `'0'` shifted by a digit value: the decimal digit characters produced by
Python's `str` on an integer. -/
def digitChar (d : Nat) : Char := Char.ofNat (48 + d)

/-- Fuel-driven digit accumulation: with fuel exceeding `n` this computes
the decimal digits of `n`, least significant first. -/
def natDigitsGo : Nat → Nat → List Char
  | 0, _ => []
  | fuel + 1, n =>
    if n < 10 then [digitChar n]
    else digitChar (n % 10) :: natDigitsGo fuel (n / 10)

/-- The decimal digits of a natural number, least significant first
(the standard algorithm behind Python's `str(int)`); `n + 1` units of fuel
always suffice since the argument shrinks by a factor of 10. -/
def natDigitsLE (n : Nat) : List Char := natDigitsGo (n + 1) n

/-- Python `str` of an integer: optional minus sign, then decimal digits. -/
def pyIntStr (n : Int) : String :=
  if n < 0 then ⟨'-' :: (natDigitsLE n.natAbs).reverse⟩
  else ⟨(natDigitsLE n.natAbs).reverse⟩

/-- Python `str.lower()` on one character (the ASCII case, which covers
every character relevant to the comparisons the source makes). -/
def pyLowerChar (c : Char) : Char :=
  if 65 ≤ c.toNat ∧ c.toNat ≤ 90 then Char.ofNat (c.toNat + 32) else c

/-- Python `str.lower()`. -/
def pyLower (s : String) : String := ⟨s.data.map pyLowerChar⟩

/-- A spreadsheet cell value as produced by `df.to_dict(orient='records')`:
a boolean, an integer, a string, or an absent field. -/
inductive CellVal where
  | vBool (b : Bool)
  | vInt (n : Int)
  | vStr (s : String)
  | vAbsent
deriving DecidableEq

/-- Python `str` of the value of `q.get('has_image', False)`: the absent
case defaults to `False`, whose `str` is `"False"`. -/
def pyStrCell : CellVal → String
  | .vBool true => "True"
  | .vBool false => "False"
  | .vInt n => pyIntStr n
  | .vStr s => s
  | .vAbsent => "False"

/-- The flag test of the Mining Driver (src lines 196–198):
`str(q.get('has_image', False)).lower() in ['true', '1']`. -/
def flaggedTest (v : CellVal) : Bool :=
  pyLower (pyStrCell v) == "true" || pyLower (pyStrCell v) == "1"

/-! ## Mining Driver (`main`, src lines 164–224) -/

/-- An input record (spreadsheet row): its `has_image` field and its
`Question` field, each `vAbsent` when the column is missing. -/
structure Record where
  hasImage : CellVal
  question : CellVal

/-- `str(q.get('Question', ''))` (src line 201): the absent case defaults to
the empty string. -/
def qTextOf (r : Record) : String :=
  match r.question with
  | .vAbsent => ""
  | v => pyStrCell v

/-- `lookup_map[q_text] = url` on a Python dict: replace in place when the
key exists, else append (insertion order preserved, last write wins). -/
def dictSet (m : List (String × JVal)) (k : String) (v : JVal) :
    List (String × JVal) :=
  if m.any (fun p => p.1 == k) then
    m.map (fun p => if p.1 == k then (k, v) else p)
  else m ++ [(k, v)]

/-- The body of the per-record loop (src lines 195–218) for record number
`i`.  `upload` is the Uploader boundary (bytes and filename to the returned
decoded JSON value; the bearer token is fixed for the run).  An extraction
failure inside `find_image_below_text` is not caught by the source, so it
propagates as `Except.error`. -/
def processOne (doc : Document) (score : String → String → Nat)
    (upload : List Nat → String → JVal) (i : Nat) (r : Record)
    (m : List (String × JVal)) : Except Unit (List (String × JVal)) :=
  if flaggedTest r.hasImage then
    match find_image_below_text score doc (qTextOf r) with
    | .error e => .error e
    | .ok none => .ok m
    | .ok (some img) =>
      let url := upload img.bytes ("q_" ++ toString i ++ "." ++ img.ext)
      if pyTruthy url then .ok (dictSet m (qTextOf r) url) else .ok m
  else .ok m

/-- The loop `for i, q in enumerate(questions)` (src lines 195–218): an
uncaught per-record exception aborts the whole loop. -/
def processRecords (doc : Document) (score : String → String → Nat)
    (upload : List Nat → String → JVal) :
    Nat → List Record → List (String × JVal) →
    Except Unit (List (String × JVal))
  | _, [], m => .ok m
  | i, r :: rest, m =>
    match processOne doc score upload i r m with
    | .error e => .error e
    | .ok m2 => processRecords doc score upload (i + 1) rest m2

/-- `main` after the record source and document have been loaded (src lines
170–224).  The result is the output artifact: `some m` when `json.dump` runs
with map `m` (`some []` is the empty object `{}`), `none` when an uncaught
exception aborts the run before the final dump.  `if not api_token:` writes
`{}` and returns, performing no mining. -/
def runMain (token : Option JVal) (records : List Record) (doc : Document)
    (score : String → String → Nat) (upload : List Nat → String → JVal) :
    Option (List (String × JVal)) :=
  match token with
  | none => some []
  | some t =>
    if pyTruthy t then
      match processRecords doc score upload 0 records [] with
      | .ok m => some m
      | .error _ => none
    else some []

/-! ## Concrete instances for the end-to-end scenarios -/

/-- A concrete stand-in for `fuzz.partial_ratio` in the scenarios: 95 when
the (truncated) query is a prefix of the fragment text, else 0. -/
def stubScore (q s : String) : Nat := if q.data.isPrefixOf s.data then 95 else 0

/-- Exact-equality scoring stub: 100 on equal strings, else 0. -/
def eqScore (q s : String) : Nat := if q == s then 100 else 0

/-- A scoring stub with every score below the threshold. -/
def lowScore : String → String → Nat := fun _ _ => 50

/-- A scoring stub for the tie scenario: every fragment with text `"A"`
scores 90. -/
def tieScore : String → String → Nat := fun _ t => if t == "A" then 90 else 0

/-- Scenario document for the primary pass: page 0 holds the fragment
"What is the capital of France?" with box y0=100, y1=120 and two images,
xref 10 at y0=150 (distance 30) and xref 11 at y0=500 (distance 380). -/
def exDocC5 : Document :=
  { pages :=
      [ { blocks := [⟨⟨50, 100, 400, 120⟩, "What is the capital of France?"⟩]
          images := [⟨10, [⟨0, 150, 100, 250⟩]⟩, ⟨11, [⟨0, 500, 100, 600⟩]⟩] }
      , { blocks := [], images := [] } ]
    extractTable := fun x =>
      if x == 10 then some ⟨[10], "png"⟩
      else if x == 11 then some ⟨[11], "png"⟩
      else none }

/-- Scenario document for the fallback pass: a fragment at the bottom of
page 0 (y1=780), no image on page 0, and one image (xref 7) at y0=50 on
page 1. -/
def exDocC4 : Document :=
  { pages :=
      [ { blocks := [⟨⟨50, 760, 400, 780⟩, "Bottom question text"⟩]
          images := [] }
      , { blocks := [], images := [⟨7, [⟨0, 50, 100, 150⟩]⟩] } ]
    extractTable := fun x => if x == 7 then some ⟨[7], "png"⟩ else none }

/-- A document whose extraction table resolves no handle: every
`doc.extract_image` call raises.  Page 0 matches the query `"Q1"` (fragment
bottom y1=10) and has an image (xref 5) at y0=20. -/
def exDocC9 : Document :=
  { pages :=
      [ { blocks := [⟨⟨0, 0, 100, 10⟩, "Q1"⟩, ⟨⟨0, 30, 100, 40⟩, "Q2"⟩]
          images := [⟨5, [⟨0, 20, 100, 30⟩]⟩] } ]
    extractTable := fun _ => none }

/-- Two flagged records for the extraction-failure run. -/
def exRecsC9 : List Record := [⟨.vBool true, .vStr "Q1"⟩, ⟨.vBool true, .vStr "Q2"⟩]

/-- A deterministic Uploader stub. -/
def exUpload : List Nat → String → JVal := fun _ _ => .jStr "http://example/u"

/-- A page whose single image (xref 3) sits exactly at the reference
boundary y0 = 120. -/
def exPageBoundary : Page := { blocks := [], images := [⟨3, [⟨0, 120, 100, 200⟩]⟩] }

/-- A page whose single image (xref 4) sits exactly 800 units below the
reference boundary y = 100. -/
def exPageCap800 : Page := { blocks := [], images := [⟨4, [⟨0, 900, 100, 950⟩]⟩] }

/-- A page whose single image (xref 6) sits exactly at y0 = 300. -/
def exPageCap300 : Page := { blocks := [], images := [⟨6, [⟨0, 300, 100, 350⟩]⟩] }

/-- A page with two fragments of the same text `"A"` (a score tie), the
first with box ⟨0,0,10,10⟩. -/
def exPageTie : Page :=
  { blocks := [⟨⟨0, 0, 10, 10⟩, "A"⟩, ⟨⟨0, 50, 10, 60⟩, "A"⟩], images := [] }

/-- An upload response with both a root-level `url` and a nested `data.url`. -/
def exRespOrder : List (String × JVal) :=
  [("url", .jStr "A"), ("data", .jObj [("url", .jStr "B")])]

/-- An upload response whose `data` field is a string beginning with
`http`. -/
def exRespDataStr : List (String × JVal) := [("data", .jStr "http://x")]

/-! ## Locator lemmas -/

theorem locatePages_eq_foldl (score : String → String → Nat) (q : String)
    (pages : List Page) : ∀ (n : Nat) (st : Option (Nat × Rect × Nat)),
    locatePages score q pages n st
      = (enumBlocksFrom n pages).foldl (locStepP score q) st := by
  induction pages with
  | nil => intro n st; rfl
  | cons pg rest ih =>
    intro n st
    rw [locatePages, enumBlocksFrom, List.foldl_append, List.foldl_map, ih]
    rfl

theorem locate_eq_foldl (score : String → String → Nat) (pages : List Page)
    (q : String) :
    locate score pages q = (enumBlocksFrom 0 pages).foldl (locStepP score q) none :=
  locatePages_eq_foldl score q pages 0 none

theorem ratioOf_locStepP_le (score : String → String → Nat) (q : String)
    (st : Option (Nat × Rect × Nat)) (pb : Nat × Block) :
    ratioOf st ≤ ratioOf (locStepP score q st pb) := by
  unfold locStepP locStep
  by_cases h : 85 < score q pb.2.text ∧ ratioOf st < score q pb.2.text
  · rw [if_pos h]; exact Nat.le_of_lt h.2
  · rw [if_neg h]

theorem locStepP_cases (score : String → String → Nat) (q : String)
    (st : Option (Nat × Rect × Nat)) (pb : Nat × Block) :
    (locStepP score q st pb = st
       ∧ (85 < score q pb.2.text → score q pb.2.text ≤ ratioOf st))
    ∨ (locStepP score q st pb = some (pb.1, pb.2.rect, score q pb.2.text)
       ∧ 85 < score q pb.2.text ∧ ratioOf st < score q pb.2.text) := by
  unfold locStepP locStep
  by_cases h : 85 < score q pb.2.text ∧ ratioOf st < score q pb.2.text
  · right; rw [if_pos h]; exact ⟨rfl, h⟩
  · left
    rw [if_neg h]
    refine ⟨rfl, fun h85 => ?_⟩
    by_contra hlt
    exact h ⟨h85, by omega⟩

theorem locFold_ratio_le (score : String → String → Nat) (q : String)
    (l : List (Nat × Block)) :
    ∀ st, ratioOf st ≤ ratioOf (l.foldl (locStepP score q) st) := by
  induction l with
  | nil => intro st; exact Nat.le_refl _
  | cons pb tl ih =>
    intro st
    exact Nat.le_trans (ratioOf_locStepP_le score q st pb) (ih _)

theorem locFold_spec (score : String → String → Nat) (q : String)
    (l : List (Nat × Block)) : ∀ (st : Option (Nat × Rect × Nat)),
    (∀ pb ∈ l, 85 < score q pb.2.text →
        score q pb.2.text ≤ ratioOf (l.foldl (locStepP score q) st))
  ∧ (l.foldl (locStepP score q) st = st
      ∨ ∃ pb ∈ l, l.foldl (locStepP score q) st
            = some (pb.1, pb.2.rect, score q pb.2.text) ∧ 85 < score q pb.2.text) := by
  induction l with
  | nil =>
    intro st
    exact ⟨fun pb h => absurd h (List.not_mem_nil pb), Or.inl rfl⟩
  | cons pb0 tl ih =>
    intro st
    rw [List.foldl_cons]
    constructor
    · intro pb hpb h85
      have hmono := locFold_ratio_le score q tl (locStepP score q st pb0)
      rcases List.mem_cons.mp hpb with h | h
      · subst h
        rcases locStepP_cases score q st pb with ⟨heq, hbound⟩ | ⟨heq, _, _⟩
        · have h1 := hbound h85
          have h2 := ratioOf_locStepP_le score q st pb
          omega
        · have h2 : ratioOf (locStepP score q st pb) = score q pb.2.text := by
            rw [heq]; rfl
          omega
      · exact (ih (locStepP score q st pb0)).1 pb h h85
    · rcases (ih (locStepP score q st pb0)).2 with h | ⟨pb, hpb, heq, h85⟩
      · rw [h]
        rcases locStepP_cases score q st pb0 with ⟨heq, _⟩ | ⟨heq, h85, _⟩
        · exact Or.inl heq
        · exact Or.inr ⟨pb0, List.mem_cons_self pb0 tl, heq, h85⟩
      · exact Or.inr ⟨pb, List.mem_cons_of_mem pb0 hpb, heq, h85⟩

theorem locFold_stable (score : String → String → Nat) (q : String)
    (l : List (Nat × Block)) : ∀ (st : Option (Nat × Rect × Nat)),
    ratioOf (l.foldl (locStepP score q) st) = ratioOf st →
    l.foldl (locStepP score q) st = st := by
  induction l with
  | nil => intro st _; rfl
  | cons pb tl ih =>
    intro st h
    rw [List.foldl_cons] at h ⊢
    have hmono := locFold_ratio_le score q tl (locStepP score q st pb)
    rcases locStepP_cases score q st pb with ⟨heq, _⟩ | ⟨heq, _, hlt⟩
    · rw [heq] at h ⊢
      exact ih st h
    · exfalso
      have h2 : ratioOf (locStepP score q st pb) = score q pb.2.text := by
        rw [heq]; rfl
      omega

theorem locFold_first (score : String → String → Nat) (q : String)
    (l : List (Nat × Block)) :
    ∀ (st : Option (Nat × Rect × Nat)) (p : Nat) (r : Rect) (s : Nat),
    l.foldl (locStepP score q) st = some (p, r, s) →
    85 < s → ratioOf st < s →
    ∃ pb, l.find? (fun x => score q x.2.text == s) = some pb
      ∧ pb.1 = p ∧ pb.2.rect = r := by
  induction l with
  | nil =>
    intro st p r s hres _ hlt
    rw [List.foldl_nil] at hres
    rw [hres] at hlt
    simp [ratioOf] at hlt
  | cons pb0 tl ih =>
    intro st p r s hres h85 hlt
    rw [List.foldl_cons] at hres
    by_cases hs : score q pb0.2.text = s
    · have hfire : locStepP score q st pb0
          = some (pb0.1, pb0.2.rect, score q pb0.2.text) := by
        unfold locStepP locStep
        rw [if_pos ⟨by omega, by omega⟩]
      have hres_ratio :
          ratioOf (tl.foldl (locStepP score q) (locStepP score q st pb0))
            = ratioOf (locStepP score q st pb0) := by
        rw [hres, hfire]
        simp [ratioOf, hs]
      have hstable := locFold_stable score q tl _ hres_ratio
      rw [hstable, hfire] at hres
      simp only [Option.some.injEq, Prod.mk.injEq] at hres
      refine ⟨pb0, ?_, hres.1, hres.2.1⟩
      rw [List.find?_cons_of_pos]
      simp [hs]
    · have hfind : (pb0 :: tl).find? (fun x => score q x.2.text == s)
          = tl.find? (fun x => score q x.2.text == s) := by
        rw [List.find?_cons_of_neg]
        simp [hs]
      have hle : ratioOf (locStepP score q st pb0) ≤ s := by
        have h2 := locFold_ratio_le score q tl (locStepP score q st pb0)
        rw [hres] at h2
        simpa [ratioOf] using h2
      have hlt1 : ratioOf (locStepP score q st pb0) < s := by
        rcases locStepP_cases score q st pb0 with ⟨heq, _⟩ | ⟨heq, _, _⟩
        · rw [heq]; exact hlt
        · rw [heq] at hle ⊢
          simp only [ratioOf] at hle ⊢
          omega
      rcases ih _ p r s hres h85 hlt1 with ⟨pb, hf, hp, hr⟩
      exact ⟨pb, by rw [hfind]; exact hf, hp, hr⟩

theorem mem_enumBlocksFrom (pages : List Page) :
    ∀ (n : Nat) (pb : Nat × Block), pb ∈ enumBlocksFrom n pages →
      ∃ pg ∈ pages, pb.2 ∈ pg.blocks := by
  induction pages with
  | nil =>
    intro n pb h
    simp [enumBlocksFrom] at h
  | cons pg rest ih =>
    intro n pb h
    rw [enumBlocksFrom] at h
    rcases List.mem_append.mp h with h | h
    · rcases List.mem_map.mp h with ⟨b, hb, rfl⟩
      exact ⟨pg, List.mem_cons_self pg rest, hb⟩
    · rcases ih (n + 1) pb h with ⟨pg2, hpg, hb⟩
      exact ⟨pg2, List.mem_cons_of_mem pg hpg, hb⟩

theorem enumBlocksFrom_mem_of (pages : List Page) :
    ∀ (n : Nat) (pg : Page) (b : Block), pg ∈ pages → b ∈ pg.blocks →
      ∃ m, (m, b) ∈ enumBlocksFrom n pages := by
  induction pages with
  | nil => intro n pg b h; cases h
  | cons pg0 rest ih =>
    intro n pg b hpg hb
    rcases List.mem_cons.mp hpg with h | h
    · subst h
      refine ⟨n, ?_⟩
      rw [enumBlocksFrom]
      exact List.mem_append.mpr (Or.inl (List.mem_map_of_mem _ hb))
    · rcases ih (n + 1) pg b h hb with ⟨m, hm⟩
      refine ⟨m, ?_⟩
      rw [enumBlocksFrom]
      exact List.mem_append.mpr (Or.inr hm)

/-! ## Claim C2 -/

/-- **C2.** For every document and every query, if the similarity score of
the truncated query against every fragment is at most 85, the Text Locator
returns "not found" (both at the `locate` stage and through
`find_image_below_text`); and whenever it returns a match, the match's score
exceeds 85, bounds the score of every fragment scanned, and is attained by
some fragment — it is the maximum score over all fragments. -/
theorem C2_locator_threshold_and_max :
    (∀ (score : String → String → Nat) (pages : List Page) (q : String),
        (∀ pg ∈ pages, ∀ b ∈ pg.blocks, score q b.text ≤ 85) →
        locate score pages q = none)
  ∧ (∀ (score : String → String → Nat) (doc : Document) (q : String),
        (∀ pg ∈ doc.pages, ∀ b ∈ pg.blocks, score (pyTake q 100) b.text ≤ 85) →
        find_image_below_text score doc q = .ok none)
  ∧ (∀ (score : String → String → Nat) (pages : List Page) (q : String)
        (p : Nat) (r : Rect) (s : Nat),
        locate score pages q = some (p, r, s) →
        85 < s ∧ (∀ pg ∈ pages, ∀ b ∈ pg.blocks, score q b.text ≤ s)
          ∧ ∃ pg ∈ pages, ∃ b ∈ pg.blocks, score q b.text = s) := by
  have key_none : ∀ (score : String → String → Nat) (pages : List Page) (q : String),
      (∀ pg ∈ pages, ∀ b ∈ pg.blocks, score q b.text ≤ 85) →
      locate score pages q = none := by
    intro score pages q hbound
    rw [locate_eq_foldl]
    rcases (locFold_spec score q (enumBlocksFrom 0 pages) none).2 with h | ⟨pb, hpb, _, h85⟩
    · exact h
    · exfalso
      rcases mem_enumBlocksFrom pages 0 pb hpb with ⟨pg, hpg, hb⟩
      have := hbound pg hpg pb.2 hb
      omega
  refine ⟨key_none, ?_, ?_⟩
  · intro score doc q hbound
    have h1 := key_none score doc.pages (pyTake q 100) hbound
    simp [find_image_below_text, h1]
  · intro score pages q p r s hres
    rw [locate_eq_foldl] at hres
    have hspec := locFold_spec score q (enumBlocksFrom 0 pages) none
    rcases hspec.2 with h | ⟨pb, hpb, heq, h85⟩
    · rw [hres] at h; cases h
    · rw [hres] at heq
      simp only [Option.some.injEq, Prod.mk.injEq] at heq
      have hscore : score q pb.2.text = s := heq.2.2.symm
      have hratio : ratioOf ((enumBlocksFrom 0 pages).foldl (locStepP score q) none) = s := by
        rw [hres]; rfl
      refine ⟨by omega, ?_, ?_⟩
      · intro pg hpg b hb
        rcases enumBlocksFrom_mem_of pages 0 pg b hpg hb with ⟨m, hm⟩
        by_cases hbig : 85 < score q b.text
        · have := hspec.1 (m, b) hm hbig
          rw [hratio] at this
          exact this
        · omega
      · rcases mem_enumBlocksFrom pages 0 pb hpb with ⟨pg, hpg, hb⟩
        exact ⟨pg, hpg, pb.2, hb, hscore⟩

/-- Witness for C2 at a concrete input: with a scoring function that gives
every fragment 50, the tie-scenario page yields no match. -/
theorem C2_locator_threshold_and_max_witness :
    locate lowScore [exPageTie] "A" = none :=
  C2_locator_threshold_and_max.1 lowScore [exPageTie] "A" (by decide)

/-! ## Claim C6 -/

/-- **C6.** Whenever the Text Locator returns a match with score `s`, the
matched fragment is the first fragment in page/fragment scanning order whose
score is `s`: a later fragment with an equal score never replaces the
current best. -/
theorem C6_tie_earlier_wins (score : String → String → Nat) (pages : List Page)
    (q : String) (p : Nat) (r : Rect) (s : Nat)
    (h : locate score pages q = some (p, r, s)) :
    ∃ pb, (enumBlocksFrom 0 pages).find? (fun x => score q x.2.text == s) = some pb
      ∧ pb.1 = p ∧ pb.2.rect = r := by
  rw [locate_eq_foldl] at h
  have hspec := (locFold_spec score q (enumBlocksFrom 0 pages) none).2
  have h85 : 85 < s := by
    rcases hspec with h0 | ⟨pb, _, heq, h85⟩
    · rw [h] at h0; cases h0
    · rw [h] at heq
      simp only [Option.some.injEq, Prod.mk.injEq] at heq
      omega
  exact locFold_first score q (enumBlocksFrom 0 pages) none p r s h h85
    (by simp [ratioOf]; omega)

/-- Witness for C6: on a page with two fragments of text `"A"` that tie at
score 90, the first one (box ⟨0,0,10,10⟩ on page 0) is selected. -/
theorem C6_tie_earlier_wins_witness :
    ∃ pb, (enumBlocksFrom 0 [exPageTie]).find?
        (fun x => tieScore "A" x.2.text == 90) = some pb
      ∧ pb.1 = 0 ∧ pb.2.rect = ⟨0, 0, 10, 10⟩ :=
  C6_tie_earlier_wins tieScore [exPageTie] "A" 0 ⟨0, 0, 10, 10⟩ 90 (by decide)

/-! ## Associator lemmas -/

theorem scanStep_snd_le (minY : Int) (acc : Option Nat × Int) (img : ImageEntry) :
    (scanStep minY acc img).2 ≤ acc.2 := by
  rcases himg : img.rects with _ | ⟨rect, rest⟩
  · simp [scanStep, himg]
  · by_cases h1 : minY ≤ rect.y0
    · by_cases h2 : rect.y0 - minY < acc.2
      · simp only [scanStep, himg, if_pos h1, if_pos h2]
        exact le_of_lt h2
      · simp only [scanStep, himg, if_pos h1, if_neg h2]
        exact le_refl _
    · simp only [scanStep, himg, if_neg h1]
      exact le_refl _

theorem scanStep_cases (minY : Int) (acc : Option Nat × Int) (img : ImageEntry) :
    (scanStep minY acc img = acc
       ∧ (∀ r, img.rects.head? = some r → minY ≤ r.y0 → acc.2 ≤ r.y0 - minY))
    ∨ (∃ r, img.rects.head? = some r ∧ minY ≤ r.y0
         ∧ scanStep minY acc img = (some img.xref, r.y0 - minY)
         ∧ r.y0 - minY < acc.2) := by
  rcases himg : img.rects with _ | ⟨rect, rest⟩
  · left
    refine ⟨by simp [scanStep, himg], fun r hr => ?_⟩
    simp [himg] at hr
  · have hhead : (rect :: rest).head? = some rect := rfl
    by_cases h1 : minY ≤ rect.y0
    · by_cases h2 : rect.y0 - minY < acc.2
      · right
        exact ⟨rect, hhead, h1, by simp only [scanStep, himg, if_pos h1, if_pos h2], h2⟩
      · left
        refine ⟨by simp only [scanStep, himg, if_pos h1, if_neg h2], fun r hr _ => ?_⟩
        rw [hhead] at hr
        cases hr
        omega
    · left
      refine ⟨by simp only [scanStep, himg, if_neg h1], fun r hr hge => ?_⟩
      rw [hhead] at hr
      cases hr
      omega

theorem scanFold_spec (minY : Int) (l : List ImageEntry) :
    ∀ (acc : Option Nat × Int),
    (l.foldl (scanStep minY) acc = acc
      ∨ ∃ img ∈ l, ∃ r, img.rects.head? = some r ∧ minY ≤ r.y0
          ∧ l.foldl (scanStep minY) acc = (some img.xref, r.y0 - minY)
          ∧ r.y0 - minY < acc.2)
  ∧ (l.foldl (scanStep minY) acc).2 ≤ acc.2
  ∧ (∀ img ∈ l, ∀ r, img.rects.head? = some r → minY ≤ r.y0 →
        (l.foldl (scanStep minY) acc).2 ≤ r.y0 - minY) := by
  induction l with
  | nil =>
    intro acc
    exact ⟨Or.inl rfl, le_refl _, fun img h => absurd h (List.not_mem_nil img)⟩
  | cons img0 tl ih =>
    intro acc
    rw [List.foldl_cons]
    have ih1 := ih (scanStep minY acc img0)
    have hstep := scanStep_snd_le minY acc img0
    refine ⟨?_, le_trans ih1.2.1 hstep, ?_⟩
    · rcases ih1.1 with h | ⟨img, hmem, r, hh, hge, heq, hlt⟩
      · rw [h]
        rcases scanStep_cases minY acc img0 with ⟨heq0, _⟩ | ⟨r, hh, hge, heq0, hlt0⟩
        · exact Or.inl heq0
        · exact Or.inr ⟨img0, List.mem_cons_self img0 tl, r, hh, hge, heq0, hlt0⟩
      · exact Or.inr ⟨img, List.mem_cons_of_mem img0 hmem, r, hh, hge, heq,
          lt_of_lt_of_le hlt hstep⟩
    · intro img hmem r hh hge
      rcases List.mem_cons.mp hmem with h | h
      · subst h
        rcases scanStep_cases minY acc img with ⟨heq0, hbound⟩ | ⟨r2, hh2, _, heq0, _⟩
        · have h1 := hbound r hh hge
          have h2 := ih1.2.1
          rw [heq0] at h2
          omega
        · rw [hh2] at hh
          cases hh
          have h2 := ih1.2.1
          rw [heq0] at h2 ⊢
          exact h2
      · exact ih1.2.2 img h r hh hge

theorem scan_page_some (pages : List Page) (idx : Nat) (minY maxDist : Int)
    (x : Nat) (h : scan_page pages idx minY maxDist = some x) :
    ∃ pg, pages[idx]? = some pg ∧ ∃ img ∈ pg.images, ∃ r,
      img.rects.head? = some r ∧ img.xref = x ∧ minY ≤ r.y0
      ∧ r.y0 - minY < maxDist
      ∧ ∀ img2 ∈ pg.images, ∀ r2, img2.rects.head? = some r2 → minY ≤ r2.y0 →
          r.y0 - minY ≤ r2.y0 - minY := by
  unfold scan_page at h
  split at h
  · cases h
  · next pg hpg =>
    have hspec := scanFold_spec minY pg.images (none, maxDist)
    rcases hspec.1 with h0 | ⟨img, hmem, r, hh, hge, heq, hlt⟩
    · rw [h0] at h; cases h
    · rw [heq] at h
      simp only [Option.some.injEq] at h
      refine ⟨pg, hpg, img, hmem, r, hh, h, hge, hlt, ?_⟩
      intro img2 hmem2 r2 hh2 hge2
      have hb := hspec.2.2 img2 hmem2 r2 hh2 hge2
      rw [heq] at hb
      exact hb

theorem scan_page_isSome (pages : List Page) (idx : Nat) (minY maxDist : Int)
    (pg : Page) (img : ImageEntry) (r : Rect)
    (hpg : pages[idx]? = some pg) (hmem : img ∈ pg.images)
    (hhead : img.rects.head? = some r) (hge : minY ≤ r.y0)
    (hlt : r.y0 - minY < maxDist) :
    (scan_page pages idx minY maxDist).isSome = true := by
  unfold scan_page
  split
  · next h => rw [hpg] at h; cases h
  · next pg2 h =>
    rw [hpg] at h
    cases h
    rcases (scanFold_spec minY pg.images (none, maxDist)).1 with h0 | ⟨_, _, _, _, _, heq, _⟩
    · exfalso
      have hb := (scanFold_spec minY pg.images (none, maxDist)).2.2 img hmem r hhead hge
      rw [h0] at hb
      simp at hb
      omega
    · rw [heq]
      rfl

theorem scan_page_out_of_range (pages : List Page) (idx : Nat)
    (minY maxDist : Int) (h : pages[idx]? = none) :
    scan_page pages idx minY maxDist = none := by
  unfold scan_page
  rw [h]

theorem scan_page_congr (pages1 pages2 : List Page) (idx : Nat)
    (minY maxDist : Int) (h : pages1[idx]? = pages2[idx]?) :
    scan_page pages1 idx minY maxDist = scan_page pages2 idx minY maxDist := by
  unfold scan_page
  rw [h]

/-! ## Claim C3 -/

/-- **C3.** The Image Associator only ever selects an image whose top-edge
y-coordinate is at or below the reference boundary (`rect.y0 >= min_y`, for
any boundary and cap, hence both for the same-page pass and the next-page
pass); and the comparison is boundary-inclusive: an image sitting exactly at
the boundary (y0 = 120 with reference 120) is selected. -/
theorem C3_never_above_boundary :
    (∀ (pages : List Page) (idx : Nat) (minY maxDist : Int) (x : Nat),
        scan_page pages idx minY maxDist = some x →
        ∃ pg, pages[idx]? = some pg ∧ ∃ img ∈ pg.images, ∃ r,
          img.rects.head? = some r ∧ img.xref = x ∧ minY ≤ r.y0)
  ∧ scan_page [exPageBoundary] 0 120 800 = some 3 := by
  constructor
  · intro pages idx minY maxDist x h
    rcases scan_page_some pages idx minY maxDist x h with
      ⟨pg, hpg, img, hmem, r, hh, hx, hge, _, _⟩
    exact ⟨pg, hpg, img, hmem, r, hh, hx, hge⟩
  · decide

/-- Witness for C3: the selected image of the boundary page indeed has its
top edge at or below the boundary 120. -/
theorem C3_never_above_boundary_witness :
    ∃ pg, ([exPageBoundary] : List Page)[0]? = some pg ∧ ∃ img ∈ pg.images, ∃ r,
      img.rects.head? = some r ∧ img.xref = 3 ∧ (120 : Int) ≤ r.y0 :=
  C3_never_above_boundary.1 [exPageBoundary] 0 120 800 3 (by decide)

/-! ## Claim C10 -/

/-- **C10.** Both distance caps are strict bounds: any image selected by
`scan_page` lies at distance strictly less than the cap, an image exactly
800 units below the text bottom is never selected by the primary pass, and
an image exactly at y0 = 300 is never selected by the fallback pass. -/
theorem C10_caps_strict :
    (∀ (pages : List Page) (idx : Nat) (minY maxDist : Int) (x : Nat),
        scan_page pages idx minY maxDist = some x →
        ∃ pg, pages[idx]? = some pg ∧ ∃ img ∈ pg.images, ∃ r,
          img.rects.head? = some r ∧ img.xref = x ∧ r.y0 - minY < maxDist)
  ∧ scan_page [exPageCap800] 0 100 800 = none
  ∧ scan_page [exPageCap300] 0 0 300 = none := by
  refine ⟨?_, by decide, by decide⟩
  intro pages idx minY maxDist x h
  rcases scan_page_some pages idx minY maxDist x h with
    ⟨pg, hpg, img, hmem, r, hh, hx, _, hlt, _⟩
  exact ⟨pg, hpg, img, hmem, r, hh, hx, hlt⟩

/-- Witness for C10: the image selected on the boundary page lies strictly
within the 800-unit cap. -/
theorem C10_caps_strict_witness :
    ∃ pg, ([exPageBoundary] : List Page)[0]? = some pg ∧ ∃ img ∈ pg.images, ∃ r,
      img.rects.head? = some r ∧ img.xref = 3 ∧ r.y0 - 120 < 800 :=
  C10_caps_strict.1 [exPageBoundary] 0 120 800 3 (by decide)

/-! ## Claim C5 -/

set_option maxRecDepth 16384 in
/-- **C5.** The primary pass considers exactly the images on the match's
page whose top-edge y is at or below the text's bottom edge: whenever it
returns an image, that image is such a candidate within the 800-unit cap
and has minimum vertical distance among all candidates; and whenever some
candidate within the cap exists, an image is returned.  In the spec's
concrete scenario (text box y1=120, images at y0=150 and y0=500, score 95),
the y0=150 image (xref 10) is extracted. -/
theorem C5_primary_pass :
    (∀ (pages : List Page) (idx : Nat) (textBottom : Int) (x : Nat),
        scan_page pages idx textBottom 800 = some x →
        ∃ pg, pages[idx]? = some pg ∧ ∃ img ∈ pg.images, ∃ r,
          img.rects.head? = some r ∧ img.xref = x ∧ textBottom ≤ r.y0
          ∧ r.y0 - textBottom < 800
          ∧ ∀ img2 ∈ pg.images, ∀ r2, img2.rects.head? = some r2 →
              textBottom ≤ r2.y0 → r.y0 - textBottom ≤ r2.y0 - textBottom)
  ∧ (∀ (pages : List Page) (idx : Nat) (textBottom : Int) (pg : Page)
        (img : ImageEntry) (r : Rect),
        pages[idx]? = some pg → img ∈ pg.images → img.rects.head? = some r →
        textBottom ≤ r.y0 → r.y0 - textBottom < 800 →
        (scan_page pages idx textBottom 800).isSome = true)
  ∧ find_image_below_text stubScore exDocC5 "What is the capital of France"
      = .ok (some ⟨[10], "png"⟩) := by
  refine ⟨?_, ?_, by decide⟩
  · intro pages idx textBottom x h
    exact scan_page_some pages idx textBottom 800 x h
  · intro pages idx textBottom pg img r hpg hmem hh hge hlt
    exact scan_page_isSome pages idx textBottom 800 pg img r hpg hmem hh hge hlt

/-- Witness for C5: applied to the scenario document's page 0 with text
bottom 120, the returned xref 10 is a boundary-respecting minimum-distance
candidate. -/
theorem C5_primary_pass_witness :
    ∃ pg, exDocC5.pages[0]? = some pg ∧ ∃ img ∈ pg.images, ∃ r,
      img.rects.head? = some r ∧ img.xref = 10 ∧ (120 : Int) ≤ r.y0
      ∧ r.y0 - 120 < 800
      ∧ ∀ img2 ∈ pg.images, ∀ r2, img2.rects.head? = some r2 →
          (120 : Int) ≤ r2.y0 → r.y0 - 120 ≤ r2.y0 - 120 :=
  C5_primary_pass.1 exDocC5.pages 0 120 10 (by decide)

/-! ## Claim C4 -/

set_option maxRecDepth 16384 in
/-- **C4.** When the primary same-page pass yields no image, the Associator
repeats the minimum-distance search on page index + 1 with reference
boundary y = 0 and cap 300; if that next page does not exist the result is
"not found"; the association depends on no page other than the match page
and that single next page; and in the concrete scenario (fragment bottom
y1=780 on page 0, no image on page 0, one image at y0=50 on page 1), the
page-1 image (xref 7) is extracted. -/
theorem C4_fallback :
    (∀ (pages : List Page) (p : Nat) (tb : Int),
        pyTruthyXref (scan_page pages p tb 800) = false →
        associateXref pages p tb = scan_page pages (p + 1) 0 300)
  ∧ (∀ (pages : List Page) (p : Nat) (tb : Int),
        pyTruthyXref (scan_page pages p tb 800) = false →
        pages[p + 1]? = none →
        associateXref pages p tb = none)
  ∧ (∀ (pages1 pages2 : List Page) (p : Nat) (tb : Int),
        pages1[p]? = pages2[p]? → pages1[p + 1]? = pages2[p + 1]? →
        associateXref pages1 p tb = associateXref pages2 p tb)
  ∧ find_image_below_text stubScore exDocC4 "Bottom question"
      = .ok (some ⟨[7], "png"⟩) := by
  refine ⟨?_, ?_, ?_, by decide⟩
  · intro pages p tb h
    simp [associateXref, h]
  · intro pages p tb h h2
    simp [associateXref, h, scan_page_out_of_range pages (p + 1) 0 300 h2]
  · intro pages1 pages2 p tb h1 h2
    have e1 : scan_page pages1 p tb 800 = scan_page pages2 p tb 800 :=
      scan_page_congr pages1 pages2 p tb 800 h1
    have e2 : scan_page pages1 (p + 1) 0 300 = scan_page pages2 (p + 1) 0 300 :=
      scan_page_congr pages1 pages2 (p + 1) 0 300 h2
    simp [associateXref, e1, e2]

/-- Witness for C4: with no image within the 800-unit cap on the only page
and no next page, the association is "not found". -/
theorem C4_fallback_witness :
    associateXref [exPageCap800] 0 100 = none :=
  C4_fallback.2.1 [exPageCap800] 0 100 (by decide) (by decide)

/-! ## Claim C1 -/

theorem rootChecks_eq (data : List (String × JVal)) :
    rootChecks data
      = (jLookup data "url" <|> jLookup data "secure_url").getD .jNull := by
  unfold rootChecks
  cases jLookup data "url" <;> cases jLookup data "secure_url" <;> rfl

theorem innerChain_eq (data inner : List (String × JVal)) :
    (match jLookup inner "url" with
     | some v => v
     | none =>
       match jLookup inner "link" with
       | some v => v
       | none => rootChecks data)
    = (jLookup inner "url" <|> jLookup inner "link" <|> jLookup data "url"
        <|> jLookup data "secure_url").getD .jNull := by
  cases jLookup inner "url" <;> cases jLookup inner "link" <;>
    simp [rootChecks_eq]

/-- **C1 counterexample.** The claimed extraction order is not the code's:
on a response with both a root-level `url` ("A") and a nested `data.url`
("B"), the code returns the nested "B" while the claimed order returns the
root "A"; and on a response whose `data` is the string "http://x", the
claimed order returns it while the code finds nothing. -/
theorem C1_counterexample :
    parseUploadResponse exRespOrder = .jStr "B"
  ∧ claimOrderExtract exRespOrder = .jStr "A"
  ∧ parseUploadResponse exRespDataStr = .jNull
  ∧ claimOrderExtract exRespDataStr = .jStr "http://x"
  ∧ JVal.jStr "B" ≠ JVal.jStr "A" := by
  refine ⟨rfl, rfl, rfl, rfl, ?_⟩
  intro h
  injection h with h2
  exact absurd h2 (by decide)

/-- **C1 (amended).** For every 2xx JSON upload response, the Uploader
extracts the URL by checking, in order: a nested `data.files[0].url` (when
`data` is an object with a nonempty `files` array, this branch's outcome is
final even when it yields nothing), then a nested `data.url`, then a nested
`data.link`, then a root-level `url`, then a root-level `secure_url`; there
is no rule for a string-valued `data`; if nothing matches the result is
"not found". -/
theorem C1_amended_extraction_order (data : List (String × JVal)) :
    parseUploadResponse data = amendedOrderExtract data := by
  cases hd : jLookup data "data" with
  | none =>
    simp only [parseUploadResponse, amendedOrderExtract, hd]
    exact rootChecks_eq data
  | some v =>
    cases v with
    | jObj inner =>
      cases hf : jLookup inner "files" with
      | none =>
        simp only [parseUploadResponse, amendedOrderExtract, hd, hf]
        exact innerChain_eq data inner
      | some w =>
        cases w with
        | jArr l =>
          cases l with
          | nil =>
            simp only [parseUploadResponse, amendedOrderExtract, hd, hf]
            exact innerChain_eq data inner
          | cons f0 rest =>
            simp only [parseUploadResponse, amendedOrderExtract, hd, hf]
            cases f0 <;> rfl
        | jNull =>
          simp only [parseUploadResponse, amendedOrderExtract, hd, hf]
          exact innerChain_eq data inner
        | jBool b =>
          simp only [parseUploadResponse, amendedOrderExtract, hd, hf]
          exact innerChain_eq data inner
        | jNum n =>
          simp only [parseUploadResponse, amendedOrderExtract, hd, hf]
          exact innerChain_eq data inner
        | jStr s =>
          simp only [parseUploadResponse, amendedOrderExtract, hd, hf]
          exact innerChain_eq data inner
        | jObj o =>
          simp only [parseUploadResponse, amendedOrderExtract, hd, hf]
          exact innerChain_eq data inner
    | jNull =>
      simp only [parseUploadResponse, amendedOrderExtract, hd]
      exact rootChecks_eq data
    | jBool b =>
      simp only [parseUploadResponse, amendedOrderExtract, hd]
      exact rootChecks_eq data
    | jNum n =>
      simp only [parseUploadResponse, amendedOrderExtract, hd]
      exact rootChecks_eq data
    | jStr s =>
      simp only [parseUploadResponse, amendedOrderExtract, hd]
      exact rootChecks_eq data
    | jArr l =>
      simp only [parseUploadResponse, amendedOrderExtract, hd]
      exact rootChecks_eq data

/-! ## Claim C7 -/

theorem natDigitsGo_digits :
    ∀ (fuel m : Nat), m < fuel →
      ∀ c ∈ natDigitsGo fuel m, 48 ≤ c.toNat ∧ c.toNat ≤ 57 := by
  intro fuel
  induction fuel with
  | zero => intro m h; omega
  | succ f ih =>
    intro m hm c hc
    unfold natDigitsGo at hc
    by_cases h : m < 10
    · rw [if_pos h] at hc
      simp only [List.mem_singleton] at hc
      subst hc
      interval_cases m <;> decide
    · rw [if_neg h] at hc
      rcases List.mem_cons.mp hc with h1 | h1
      · subst h1
        have hd : m % 10 < 10 := Nat.mod_lt _ (by omega)
        set d := m % 10 with hdd
        interval_cases d <;> decide
      · exact ih (m / 10) (by omega) c h1

theorem natDigitsGo_ne_nil (fuel m : Nat) (h : m < fuel) :
    natDigitsGo fuel m ≠ [] := by
  cases fuel with
  | zero => omega
  | succ f =>
    unfold natDigitsGo
    by_cases h1 : m < 10
    · rw [if_pos h1]; simp
    · rw [if_neg h1]; simp

theorem natDigitsGo_eq_one :
    ∀ (fuel m : Nat), m < fuel → natDigitsGo fuel m = ['1'] → m = 1 := by
  intro fuel
  induction fuel with
  | zero => intro m h; omega
  | succ f ih =>
    intro m hm h
    unfold natDigitsGo at h
    by_cases h1 : m < 10
    · rw [if_pos h1] at h
      simp only [List.cons.injEq, and_true] at h
      interval_cases m <;> revert h <;> decide
    · rw [if_neg h1] at h
      simp only [List.cons.injEq] at h
      exact absurd h.2 (natDigitsGo_ne_nil f (m / 10) (by omega))

theorem natDigitsLE_digits (m : Nat) :
    ∀ c ∈ natDigitsLE m, 48 ≤ c.toNat ∧ c.toNat ≤ 57 :=
  natDigitsGo_digits (m + 1) m (Nat.lt_succ_self m)

theorem natDigitsLE_eq_one (m : Nat) (h : natDigitsLE m = ['1']) : m = 1 :=
  natDigitsGo_eq_one (m + 1) m (Nat.lt_succ_self m) h

theorem pyLowerChar_low (c : Char) (h : c.toNat ≤ 57) : pyLowerChar c = c := by
  unfold pyLowerChar
  rw [if_neg]
  omega

theorem pyLower_digits (l : List Char)
    (h : ∀ c ∈ l, 48 ≤ c.toNat ∧ c.toNat ≤ 57) :
    l.map pyLowerChar = l := by
  induction l with
  | nil => rfl
  | cons c tl ih =>
    rw [List.map_cons, pyLowerChar_low c (h c (List.mem_cons_self c tl)).2,
      ih (fun x hx => h x (List.mem_cons_of_mem c hx))]

theorem pyIntStr_lower_cases (n : Int) :
    (pyLower (pyIntStr n) = "true" → False)
  ∧ (pyLower (pyIntStr n) = "1" → n = 1) := by
  by_cases hn : n < 0
  · constructor
    · intro h
      rw [pyIntStr, if_pos hn] at h
      have hd : ('-' :: (natDigitsLE n.natAbs).reverse).map pyLowerChar
          = "true".data := congrArg String.data h
      rw [show ("true".data) = ['t', 'r', 'u', 'e'] from rfl, List.map_cons] at hd
      simp only [List.cons.injEq] at hd
      exact absurd hd.1 (by decide)
    · intro h
      rw [pyIntStr, if_pos hn] at h
      have hd : ('-' :: (natDigitsLE n.natAbs).reverse).map pyLowerChar
          = "1".data := congrArg String.data h
      rw [show ("1".data) = ['1'] from rfl, List.map_cons] at hd
      simp only [List.cons.injEq] at hd
      exact absurd hd.1 (by decide)
  · have hb : ∀ c ∈ (natDigitsLE n.natAbs).reverse, 48 ≤ c.toNat ∧ c.toNat ≤ 57 :=
      fun c hc => natDigitsLE_digits n.natAbs c (List.mem_reverse.mp hc)
    constructor
    · intro h
      rw [pyIntStr, if_neg hn] at h
      have hd : ((natDigitsLE n.natAbs).reverse).map pyLowerChar = "true".data :=
        congrArg String.data h
      rw [pyLower_digits _ hb] at hd
      have h2 : natDigitsLE n.natAbs = ['e', 'u', 'r', 't'] := by
        have h3 := congrArg List.reverse hd
        simpa using h3
      have hmem : 'e' ∈ natDigitsLE n.natAbs := by
        rw [h2]; exact List.mem_cons_self _ _
      have h4 := natDigitsLE_digits n.natAbs 'e' hmem
      revert h4
      decide
    · intro h
      rw [pyIntStr, if_neg hn] at h
      have hd : ((natDigitsLE n.natAbs).reverse).map pyLowerChar = "1".data :=
        congrArg String.data h
      rw [pyLower_digits _ hb] at hd
      have h2 : natDigitsLE n.natAbs = ['1'] := by
        have h3 := congrArg List.reverse hd
        simpa using h3
      have h3 := natDigitsLE_eq_one n.natAbs h2
      omega

/-- **C7.** A record is flagged exactly when its flag field is the literal
boolean true, a string whose lower-casing is "true" or "1", or the integer
1; everything else — false, "no", 0, an absent field — is not flagged, and
the test is total (no flag value is an error). -/
theorem C7_flag_coercion :
    (∀ v : CellVal, flaggedTest v = true ↔
        (v = .vBool true
          ∨ (∃ s, v = .vStr s ∧ (pyLower s = "true" ∨ pyLower s = "1"))
          ∨ v = .vInt 1))
  ∧ flaggedTest (.vBool true) = true
  ∧ flaggedTest (.vStr "True") = true
  ∧ flaggedTest (.vStr "1") = true
  ∧ flaggedTest (.vInt 1) = true
  ∧ flaggedTest (.vBool false) = false
  ∧ flaggedTest (.vStr "no") = false
  ∧ flaggedTest (.vInt 0) = false
  ∧ flaggedTest .vAbsent = false := by
  refine ⟨?_, by decide, by decide, by decide, by decide, by decide, by decide,
    by decide, by decide⟩
  intro v
  cases v with
  | vBool b =>
    cases b with
    | true =>
      have h : flaggedTest (CellVal.vBool true) = true := by decide
      simp [h]
    | false =>
      have h : flaggedTest (CellVal.vBool false) = false := by decide
      simp [h]
  | vAbsent =>
    have h : flaggedTest CellVal.vAbsent = false := by decide
    simp [h]
  | vStr s =>
    simp [flaggedTest, pyStrCell]
  | vInt n =>
    have hc := pyIntStr_lower_cases n
    constructor
    · intro h
      simp only [flaggedTest, pyStrCell, Bool.or_eq_true, beq_iff_eq] at h
      rcases h with h | h
      · exact absurd h hc.1
      · simp [hc.2 h]
    · intro h
      have hn : n = 1 := by
        rcases h with h | ⟨s, hs, _⟩ | h
        · cases h
        · cases hs
        · injection h
      subst hn
      decide

/-- Witness for C7: the case-insensitive string form `"TRUE"` is flagged. -/
theorem C7_flag_coercion_witness : flaggedTest (.vStr "TRUE") = true :=
  (C7_flag_coercion.1 (.vStr "TRUE")).mpr
    (Or.inr (Or.inl ⟨"TRUE", rfl, Or.inl (by decide)⟩))

/-! ## Claim C8 -/

/-- **C8.** Whenever the Authenticator fails to return a token, the run
writes the output artifact as the empty JSON object and terminates without
error, performing no mining (the result is `some []` for every record list,
document, scorer, and uploader); and each failure mode — missing
credentials, a raised network exception, a non-2xx status, a missing token
field — makes the Authenticator fail. -/
theorem C8_auth_failure_empty_artifact :
    (∀ (email pw : Option String) (resp : Option (Nat × List (String × JVal)))
        (records : List Record) (doc : Document)
        (score : String → String → Nat) (upload : List Nat → String → JVal),
        login_and_get_token email pw resp = none →
        runMain (login_and_get_token email pw resp) records doc score upload
          = some [])
  ∧ (∀ pw resp, login_and_get_token none pw resp = none)
  ∧ (∀ email resp, login_and_get_token email none resp = none)
  ∧ (∀ email pw, login_and_get_token email pw none = none)
  ∧ (∀ (email pw : Option String) (status : Nat) (body : List (String × JVal)),
        status ≠ 200 → status ≠ 201 →
        login_and_get_token email pw (some (status, body)) = none)
  ∧ (∀ (email pw : Option String) (status : Nat) (body inner : List (String × JVal)),
        jLookup body "data" = some (.jObj inner) →
        jLookup inner "accessToken" = none →
        login_and_get_token email pw (some (status, body)) = none) := by
  refine ⟨?_, ?_, ?_, ?_, ?_, ?_⟩
  · intro email pw resp records doc score upload h
    rw [h]
    rfl
  · intro pw resp
    rfl
  · intro email resp
    cases email with
    | none => rfl
    | some s => simp [login_and_get_token, pyTruthyOptStr]
  · intro email pw
    unfold login_and_get_token
    split <;> rfl
  · intro email pw status body h1 h2
    unfold login_and_get_token
    split
    · have hst : (status == 200 || status == 201) = false := by simp [h1, h2]
      simp [hst]
    · rfl
  · intro email pw status body inner hdata htok
    unfold login_and_get_token
    split
    · by_cases hst : (status == 200 || status == 201) = true
      · simp [hst, hdata, htok]
      · simp [hst]
    · rfl

/-- Witness for C8: with no credentials in the environment, the run writes
the empty artifact. -/
theorem C8_auth_failure_empty_artifact_witness :
    runMain (login_and_get_token none none none) [] ⟨[], fun _ => none⟩
      lowScore exUpload = some [] :=
  C8_auth_failure_empty_artifact.1 none none none [] ⟨[], fun _ => none⟩
    lowScore exUpload rfl

/-! ## Claim C9 -/

/-- **C9 counterexample.** On a run whose first flagged record locates a
fragment and an image but whose image content handle cannot be resolved,
the extraction failure is NOT caught at the per-record boundary: the whole
run aborts (`runMain` is `none`), so no output artifact is written —
contradicting the claim that the record is skipped, later records continue,
and the artifact is still written. -/
theorem C9_counterexample :
    find_image_below_text eqScore exDocC9 (qTextOf ⟨.vBool true, .vStr "Q1"⟩)
      = .error ()
  ∧ runMain (some (.jStr "tok")) exRecsC9 exDocC9 eqScore exUpload = none := by
  constructor
  · decide
  · exact Option.isNone_iff_eq_none.mp (by decide)

/-- **C9 (amended).** A record whose image extraction fails is not caught at
the per-record boundary: the uncaught exception aborts the per-record loop
at that record (no subsequent record is processed) and the run produces no
output artifact. -/
theorem C9_extraction_failure_aborts (doc : Document)
    (score : String → String → Nat) (upload : List Nat → String → JVal)
    (i : Nat) (r : Record) (rest : List Record) (m : List (String × JVal))
    (t : JVal)
    (hflag : flaggedTest r.hasImage = true)
    (hfail : find_image_below_text score doc (qTextOf r) = .error ())
    (htok : pyTruthy t = true) :
    processRecords doc score upload i (r :: rest) m = .error ()
  ∧ runMain (some t) (r :: rest) doc score upload = none := by
  have hone : ∀ (j : Nat) (m2 : List (String × JVal)),
      processOne doc score upload j r m2 = .error () := by
    intro j m2
    unfold processOne
    simp [hflag, hfail]
  constructor
  · unfold processRecords
    simp [hone i m]
  · unfold runMain
    simp only [htok, if_true]
    unfold processRecords
    simp [hone 0 []]

/-- Witness for the amended C9, at the concrete failing run. -/
theorem C9_extraction_failure_aborts_witness :
    processRecords exDocC9 eqScore exUpload 0 exRecsC9 [] = .error ()
  ∧ runMain (some (.jStr "tok")) exRecsC9 exDocC9 eqScore exUpload = none :=
  C9_extraction_failure_aborts exDocC9 eqScore exUpload 0
    ⟨.vBool true, .vStr "Q1"⟩ [⟨.vBool true, .vStr "Q2"⟩] [] (.jStr "tok")
    (by decide) (by decide) (by decide)

end ImageMiner
